import Mathlib

set_option maxHeartbeats 1000000
set_option maxRecDepth 100000

namespace ChatApp

/-! Shallow embedding of the conversation core of the browser chat client
(`src/public/script.js`, class `AdvancedAIChat`).  Strings are modelled as
`List Char` (JS strings are sequences of UTF-16 units; all inputs we reason
about are in the BMP, where the two views agree).  Each JS regex replacement
of `formatMessage` is embedded as a recursive function that reproduces the
global leftmost, non-overlapping scan of `String.prototype.replace` for that
specific pattern. -/

/-- The backtick character (U+0060), written by code so that the delimiter of
JS template literals never appears bare in this file. -/
def btChar : Char := '\x60'

/-- JS regex `\w` character class: `[A-Za-z0-9_]`. -/
def isWordChar (c : Char) : Bool := c.isAlpha || c.isDigit || c == '_'

/-- One character of `escapeHtml` (script.js 650-654).  Setting
`div.textContent` and reading `div.innerHTML` escapes exactly the markup
significant characters of a text node. -/
def escapeHtmlChar (c : Char) : List Char :=
  if c == '&' then "&amp;".data
  else if c == '<' then "&lt;".data
  else if c == '>' then "&gt;".data
  else [c]

/-- `escapeHtml(text)` (script.js 650-654) on the character-list view. -/
def escapeHtmlL (s : List Char) : List Char := (s.map escapeHtmlChar).flatten

theorem dropWhile_length_le (p : Char → Bool) (l : List Char) :
    (l.dropWhile p).length ≤ l.length := by
  induction l with
  | nil => simp [List.dropWhile]
  | cons c cs ih =>
    rw [List.dropWhile_cons]
    split
    · simp; omega
    · simp

/-- `escapeHtml(text)` (script.js 650-654). -/
def escapeHtml (s : String) : String := ⟨escapeHtmlL s.data⟩

/-- JS `String.prototype.trim()`: strip whitespace from both ends. -/
def jsTrim (s : List Char) : List Char :=
  ((s.dropWhile Char.isWhitespace).reverse.dropWhile Char.isWhitespace).reverse

/-- Global replacement of the JS regex `/D([^D]+)D/g` by `pre ++ $1 ++ post`,
for a one-character delimiter `D`.  Used for italic (`_`), strikethrough
(`~`) and inline code (backtick) in `formatMessage` (script.js 590-596).
At each position: the delimiter, a maximal nonempty run of non-delimiter
characters, and a closing delimiter; on failure the scan advances one
character.  The scan consumes at least one character per step, so the
structural fuel argument, initialized to the input length by `replaceWrap`,
is never exhausted; exhaustion returns the input unchanged. -/
def replaceWrapF (d : Char) (pre post : List Char) : Nat → List Char → List Char
  | _, [] => []
  | 0, s => s
  | fuel + 1, c :: cs =>
    if c == d then
      if (cs.takeWhile (fun x => x != d)).isEmpty then
        c :: replaceWrapF d pre post fuel cs
      else
        match cs.dropWhile (fun x => x != d) with
        | _ :: rest2 =>
          pre ++ cs.takeWhile (fun x => x != d) ++ post ++ replaceWrapF d pre post fuel rest2
        | [] => c :: replaceWrapF d pre post fuel cs
    else c :: replaceWrapF d pre post fuel cs

def replaceWrap (d : Char) (pre post : List Char) (s : List Char) : List Char :=
  replaceWrapF d pre post s.length s

/-- The tail `[^*]+\*?\*` of the bold regex `/\*(\*?[^*]+\*?)\*/g`
(script.js 590), matched against `xs`; `pre` is what the optional leading
`\*?` of the capture group already consumed.  Returns the capture group and
the remainder after the match.  The maximal run for `[^*]+` is the only
candidate: giving characters back would leave `\*?\*` facing a non-star. -/
def boldTail (pre xs : List Char) : Option (List Char × List Char) :=
  if (xs.takeWhile (fun x => x != '*')).isEmpty then none
  else
    match xs.dropWhile (fun x => x != '*') with
    | '*' :: '*' :: zs => some (pre ++ xs.takeWhile (fun x => x != '*') ++ ['*'], zs)
    | '*' :: zs => some (pre ++ xs.takeWhile (fun x => x != '*'), zs)
    | _ => none

/-- Matcher for `(\*?[^*]+\*?)\*` (what follows the first `\*` of the bold
regex).  Greedy `\*?` first consumes a star when one is present; if the rest
of the pattern then fails the engine backtracks to the empty alternative. -/
def boldMatch (cs : List Char) : Option (List Char × List Char) :=
  match cs with
  | '*' :: cs' => (boldTail ['*'] cs').orElse (fun _ => boldTail [] cs)
  | _ => boldTail [] cs

theorem boldTail_length {pre xs g rest} (h : boldTail pre xs = some (g, rest)) :
    rest.length < xs.length := by
  unfold boldTail at h
  split at h
  · exact absurd h (by simp)
  · have h1 : (xs.dropWhile (fun x => x != '*')).length ≤ xs.length :=
      dropWhile_length_le _ xs
    split at h <;> simp_all <;> omega

theorem boldMatch_length {cs g rest} (h : boldMatch cs = some (g, rest)) :
    rest.length < cs.length := by
  unfold boldMatch at h
  split at h
  · rename_i cs'
    rcases ho : boldTail ['*'] cs' with _ | ⟨g', rest'⟩
    · rw [ho] at h
      simp only [Option.orElse] at h
      have := boldTail_length h
      simp only [List.length_cons] at this ⊢
      omega
    · rw [ho] at h
      simp only [Option.orElse, Option.some.injEq] at h
      have h2 : rest' = rest := by
        have := congrArg Prod.snd h
        simpa using this
      subst h2
      have := boldTail_length ho
      simp only [List.length_cons]
      omega
  · exact boldTail_length h

/-- Global replacement of `/\*(\*?[^*]+\*?)\*/g` by
`<strong class="bold-text">$1</strong>` (script.js 590), with the same fuel
discipline as `replaceWrapF` (a match consumes at least two characters). -/
def boldCoreF : Nat → List Char → List Char
  | _, [] => []
  | 0, s => s
  | fuel + 1, c :: cs =>
    if c == '*' then
      match boldMatch cs with
      | some (g, rest) =>
        "<strong class=\"bold-text\">".data ++ g ++ "</strong>".data ++ boldCoreF fuel rest
      | none => c :: boldCoreF fuel cs
    else c :: boldCoreF fuel cs

def boldCore (s : List Char) : List Char := boldCoreF s.length s

/-- Splits `l` at the first occurrence of `pat`: returns the part before and
the part after the occurrence.  `none` when `pat` does not occur.  This is
the search performed by a lazy `[\s\S]*?` followed by a literal. -/
def splitAtSub (pat : List Char) : List Char → Option (List Char × List Char)
  | [] => if pat.isEmpty then some ([], []) else none
  | c :: cs =>
    if pat.isPrefixOf (c :: cs) then some ([], (c :: cs).drop pat.length)
    else
      match splitAtSub pat cs with
      | some (a, b) => some (c :: a, b)
      | none => none

theorem splitAtSub_length {pat l a b} (h : splitAtSub pat l = some (a, b)) :
    b.length + pat.length ≤ l.length := by
  induction l generalizing a b with
  | nil =>
    unfold splitAtSub at h
    split at h <;> simp_all
  | cons c cs ih =>
    unfold splitAtSub at h
    split at h
    · rename_i hpre
      have hle : pat.length ≤ (c :: cs).length :=
        (List.isPrefixOf_iff_prefix.mp hpre).length_le
      simp only [Option.some.injEq, Prod.mk.injEq] at h
      obtain ⟨rfl, rfl⟩ := h
      simp only [List.length_drop]
      omega
    · split at h
      · rename_i a' b' heq
        simp only [Option.some.injEq, Prod.mk.injEq] at h
        obtain ⟨rfl, rfl⟩ := h
        have := ih heq
        simp only [List.length_cons]
        omega
      · exact absurd h (by simp)

/-- The replacement emitted for one fenced code block: the template literal
of script.js 601-609, with its exact newlines and indentation, around the
language tag and the escaped, trimmed body. -/
def codeBlockTemplate (lang body : List Char) : List Char :=
  "\n                <div class=\"code-block\">\n                    <div class=\"code-header\">\n                        <span class=\"language-tag\">".data
    ++ lang
    ++ "</span>\n                        <button class=\"copy-btn\" onclick=\"app.copyCode(this)\">Copy</button>\n                    </div>\n                    <pre><code>".data
    ++ body
    ++ "</code></pre>\n                </div>\n            ".data

/-- Global replacement of the fenced code block regex
`/```(\w+)?\n([\s\S]*?)```/g (script.js 599-610).  After three backticks,
`(\w+)?\n` matches exactly when the maximal run of word characters is
followed by a newline (shorter runs of `\w+` still face a word character,
never the newline); the lazy body extends to the first later occurrence of
three backticks.  `language || 'text'` turns an absent tag into `text`. -/
def codeBlocksCoreF : Nat → List Char → List Char
  | _, [] => []
  | 0, s => s
  | fuel + 1, c :: cs =>
    if c == btChar && [btChar, btChar].isPrefixOf cs then
      match (cs.drop 2).dropWhile isWordChar with
      | '\n' :: t2 =>
        match splitAtSub [btChar, btChar, btChar] t2 with
        | some (body, rest) =>
          codeBlockTemplate
            (if ((cs.drop 2).takeWhile isWordChar).isEmpty then "text".data
             else (cs.drop 2).takeWhile isWordChar)
            (escapeHtmlL (jsTrim body))
            ++ codeBlocksCoreF fuel rest
        | none => c :: codeBlocksCoreF fuel cs
      | _ => c :: codeBlocksCoreF fuel cs
    else c :: codeBlocksCoreF fuel cs

def codeBlocksCore (s : List Char) : List Char := codeBlocksCoreF s.length s

/-- Applies `f` to every newline-separated line of `s`, keeping the newline
separators.  This is how a `/^.../gim` anchored replacement acts on the
whole string, and also how a `.`-based global regex acts (its matches cannot
cross a newline). -/
def mapLinesF (f : List Char → List Char) : Nat → List Char → List Char
  | 0, s => f s
  | fuel + 1, s =>
    match s.dropWhile (fun c => c != '\n') with
    | [] => f (s.takeWhile (fun c => c != '\n'))
    | _ :: rest => f (s.takeWhile (fun c => c != '\n')) ++ '\n' :: mapLinesF f fuel rest

def mapLines (f : List Char → List Char) (s : List Char) : List Char :=
  mapLinesF f s.length s

/-- One line of `/^> (.*$)/gim` →
`<blockquote class="quote-block">$1</blockquote>` (script.js 613). -/
def quoteLine (l : List Char) : List Char :=
  if "> ".data.isPrefixOf l then
    "<blockquote class=\"quote-block\">".data ++ l.drop 2 ++ "</blockquote>".data
  else l

/-- One line of `/^- (.*$)/gim` → `<li class="list-item">$1</li>`
(script.js 616). -/
def listLine (l : List Char) : List Char :=
  if "- ".data.isPrefixOf l then
    "<li class=\"list-item\">".data ++ l.drop 2 ++ "</li>".data
  else l

/-- Splits at the last occurrence of `</li>` in `l`, the backtracking target
of the greedy `.*` in `/(<li class="list-item">.*<\/li>)/g`. -/
def lastSplitCloseLiF : Nat → List Char → Option (List Char × List Char)
  | 0, _ => none
  | fuel + 1, l =>
    match splitAtSub "</li>".data l with
    | none => none
    | some (a, b) =>
      match lastSplitCloseLiF fuel b with
      | none => some (a, b)
      | some (a2, b2) => some (a ++ "</li>".data ++ a2, b2)

def lastSplitCloseLi (l : List Char) : Option (List Char × List Char) :=
  lastSplitCloseLiF l.length l

/-- One line of `/(<li class="list-item">.*<\/li>)/g` →
`<ul class="styled-list">$1</ul>` (script.js 617).  The match starts at the
first occurrence of the opening tag and the greedy `.*` reaches to the last
`</li>` of the line; if either is missing nothing matches (a later starting
position would still need a `</li>` further right), and after a match no
`</li>` remains, so at most one match fires per line. -/
def containLine (l : List Char) : List Char :=
  match splitAtSub "<li class=\"list-item\">".data l with
  | none => l
  | some (before, after) =>
    match lastSplitCloseLi after with
    | none => l
    | some (mid, rest) =>
      before ++ "<ul class=\"styled-list\"><li class=\"list-item\">".data ++ mid
        ++ "</li></ul>".data ++ rest

/-- Global replacement `/\n/g` → `<br>` (script.js 620). -/
def brAll : List Char → List Char
  | [] => []
  | c :: cs => (if c == '\n' then "<br>".data else [c]) ++ brAll cs

/-- Inline code rule: `/`([^`]+)`/g` → `<code class="inline-code">$1</code>`
(script.js 596).  Note: the capture is inserted verbatim, with no escaping. -/
def inlineCodeL : List Char → List Char :=
  replaceWrap btChar "<code class=\"inline-code\">".data "</code>".data

/-- Italic rule: `/_([^_]+)_/g` → `<em class="italic-text">$1</em>`
(script.js 592). -/
def italicL : List Char → List Char :=
  replaceWrap '_' "<em class=\"italic-text\">".data "</em>".data

/-- Strikethrough rule: `/~([^~]+)~/g` → `<del class="strike-text">$1</del>`
(script.js 594). -/
def strikeL : List Char → List Char :=
  replaceWrap '~' "<del class=\"strike-text\">".data "</del>".data

/-- `formatMessage(content)` (script.js 584-623) on character lists, applying
its replacement rules in the source order: bold, italic, strikethrough,
inline code, fenced code blocks, blockquotes, list items, list containers,
newline-to-br. -/
def formatMessageL (s : List Char) : List Char :=
  brAll (mapLines containLine (mapLines listLine (mapLines quoteLine
    (codeBlocksCore (inlineCodeL (strikeL (italicL (boldCore s))))))))

/-- `formatMessage(content)` (script.js 584-623).  The guard
`if (!content) return ''` returns the empty string for empty input. -/
def formatMessage (content : String) : String :=
  if content.isEmpty then "" else ⟨formatMessageL content.data⟩

/-- A conservative notion of plain text for the renderer-idempotence
property: letters, digits, spaces, newlines and neutral punctuation; no
emphasis or code delimiters and no markup characters.  `&` and `;` are
allowed, so plain text may spell HTML entities such as `&amp;`. -/
def plainChar (c : Char) : Bool :=
  c.isAlphanum || c == ' ' || c == '\n' || c == '.' || c == ',' || c == '!' || c == '?'
    || c == ':' || c == ';' || c == '&' || c == '(' || c == ')' || c == '-'

/-- No line of `s` opens a list item (`- ` at line start).  The recursion
walks lines exactly as `mapLinesF` does; callers pass the length of `s` as
fuel. -/
def linesOkF : Nat → List Char → Bool
  | 0, s => !("- ".data.isPrefixOf s)
  | fuel + 1, s =>
    !("- ".data.isPrefixOf s) &&
      (match s.dropWhile (fun c => c != '\n') with
       | [] => true
       | _ :: rest => linesOkF fuel rest)

/-- Decidable plain-text test used by the idempotence theorem: every
character is plain and no line opens a list item (no line can open a
blockquote either, since the plain characters exclude the marker). -/
def plainText (s : String) : Bool :=
  s.data.all plainChar && linesOkF s.data.length s.data

/-! Data model: conversations, messages, the localStorage adapter and the
application state of `AdvancedAIChat` (script.js 1-12).  JS `Map` objects
are modelled as insertion-ordered association lists with unique keys kept by
`mapSet`; `Date.now()` and `new Date().toISOString()` timestamps are
modelled by a `Nat` supplied as an argument (their ordering is the
chronological one used by the history sort). -/

structure Message where
  role : String
  content : String
  type : String
  caption : Option String := none
deriving DecidableEq, Repr

structure Chat where
  id : String
  title : String
  messages : List Message
  mode : String
  createdAt : Nat
deriving DecidableEq, Repr

/-- The value stored under the `ai_chats` key: absent, a JSON string that
parses to an array of chat records, or a string on which `JSON.parse` (or
the subsequent construction of the Map) throws. -/
inductive StoredBlob where
  | absent
  | valid (cs : List Chat)
  | malformed
deriving DecidableEq, Repr

structure LocalStorage where
  ai_chats : StoredBlob
  current_chat_id : Option String
  user_api_key : Option String
deriving DecidableEq, Repr

structure AppState where
  chats : List (String × Chat)
  currentChatId : Option String
  isGenerating : Bool
  currentMode : String
  userApiKey : Option String
  apiKeyModalOpen : Bool
  storage : LocalStorage
deriving DecidableEq, Repr

/-- JS `Map.prototype.get` on the association-list model. -/
def mapGet (m : List (String × Chat)) (k : String) : Option Chat :=
  (m.find? (fun p => p.1 == k)).map Prod.snd

/-- JS `Map.prototype.has`. -/
def mapHas (m : List (String × Chat)) (k : String) : Bool :=
  m.any (fun p => p.1 == k)

/-- JS `Map.prototype.set`: updates an existing key in place, else appends. -/
def mapSet (m : List (String × Chat)) (k : String) (v : Chat) : List (String × Chat) :=
  if m.any (fun p => p.1 == k) then
    m.map (fun p => if p.1 == k then (p.1, v) else p)
  else m ++ [(k, v)]

/-- `new Map(chatsArray.map(chat => [chat.id, chat]))` (script.js 225):
entries are inserted left to right, later duplicates overwriting earlier
ones in place. -/
def mapFromArray (cs : List Chat) : List (String × Chat) :=
  cs.foldl (fun m c => mapSet m c.id c) []

/-- `saveChats()` (script.js 241-245): serializes all chat records under
`ai_chats` and the active id under `current_chat_id` (a null active id is
coerced to the string "null" by JS string conversion). -/
def saveChats (st : AppState) : AppState :=
  { st with storage := { st.storage with
      ai_chats := StoredBlob.valid (st.chats.map Prod.snd),
      current_chat_id := some (match st.currentChatId with | some s => s | none => "null") } }

/-- Mutation of the active conversation object
(`this.chats.get(this.currentChatId)` followed by a field update).  When the
active id is absent the source would throw on the `undefined` lookup; the
theorems about these operations carry the presence of the active
conversation as a hypothesis. -/
def updateCurrent (st : AppState) (f : Chat → Chat) : AppState :=
  match st.currentChatId with
  | none => st
  | some cur =>
    { st with chats := st.chats.map (fun p => if p.1 == cur then (p.1, f p.2) else p) }

/-- `addMessage(role, content, type)` (script.js 520-525): push onto the
active conversation's message sequence, then persist. -/
def addMessage (st : AppState) (role content ty : String) : AppState :=
  saveChats (updateCurrent st
    (fun c => { c with messages := c.messages ++ [⟨role, content, ty, none⟩] }))

/-- `truncateText(text, maxLength)` (script.js 962-964). -/
def truncateText (text : String) (maxLength : Nat) : String :=
  if text.length > maxLength then text.take maxLength ++ "..." else text

/-- The conversation-record part of `updateChatTitleFromFirstMessage`
(script.js 888-897): rewrite the title exactly when the conversation holds
exactly two messages and the title is still the sentinel. -/
def updateTitleChat (c : Chat) (firstMessage : String) : Chat :=
  if c.messages.length == 2 && c.title == "New Chat" then
    { c with title := truncateText firstMessage 25 }
  else c

/-- `updateChatTitleFromFirstMessage(firstMessage)` (script.js 888-897) on
the application state: reads the active conversation, and when the rewrite
condition holds updates the title and persists. -/
def updateChatTitleFromFirstMessage (st : AppState) (firstMessage : String) : AppState :=
  match st.currentChatId with
  | none => st
  | some cur =>
    match mapGet st.chats cur with
    | none => st
    | some c =>
      if c.messages.length == 2 && c.title == "New Chat" then
        saveChats (updateCurrent st (fun ch => { ch with title := truncateText firstMessage 25 }))
      else st

/-- `chat_' + Date.now()` (script.js 200). -/
def mkChatId (now : Nat) : String := "chat_" ++ toString now

/-- `createNewChat()` (script.js 199-216): fresh record with sentinel title,
empty messages, the current mode and the creation timestamp; becomes active;
persists. -/
def createNewChat (st : AppState) (now : Nat) : AppState :=
  let chatId := mkChatId now
  let chat : Chat := { id := chatId, title := "New Chat", messages := [],
                       mode := st.currentMode, createdAt := now }
  saveChats { st with chats := mapSet st.chats chatId chat, currentChatId := some chatId }

/-- `loadChats()` (script.js 218-239): reads the two persisted keys; a
malformed blob is caught and replaced by an empty mapping; the active id is
restored when it names a present conversation (JS falsiness also rejects the
empty string), else falls back to the first key, else bootstraps via
`createNewChat`. -/
def loadChats (st : AppState) (now : Nat) : AppState :=
  let chats :=
    match st.storage.ai_chats with
    | StoredBlob.absent => st.chats
    | StoredBlob.valid cs => mapFromArray cs
    | StoredBlob.malformed => []
  let st1 := { st with chats := chats }
  match st1.storage.current_chat_id with
  | some cur =>
    if cur != "" && mapHas st1.chats cur then { st1 with currentChatId := some cur }
    else if st1.chats.length > 0 then { st1 with currentChatId := st1.chats.head?.map Prod.fst }
    else createNewChat st1 now
  | none =>
    if st1.chats.length > 0 then { st1 with currentChatId := st1.chats.head?.map Prod.fst }
    else createNewChat st1 now

/-- The state of a fresh `AdvancedAIChat` instance after the constructor
field initializers and `loadUserSettings()` (script.js 2-11, 28-30). -/
def initialState (storage : LocalStorage) : AppState :=
  { chats := [], currentChatId := none, isGenerating := false, currentMode := "chat",
    userApiKey := storage.user_api_key, apiKeyModalOpen := false, storage := storage }

/-- Hydration of a fresh instance: constructor then `loadChats()`
(script.js 14-17). -/
def hydrate (storage : LocalStorage) (now : Nat) : AppState :=
  loadChats (initialState storage) now

/-- The conversation listing order of `updateChatHistory` (script.js
247-253): all records sorted by creation timestamp descending (JS sort with
comparator `new Date(b.createdAt) - new Date(a.createdAt)`, a stable sort). -/
def listChats (st : AppState) : List Chat :=
  (st.chats.map Prod.snd).mergeSort (fun a b => b.createdAt ≤ a.createdAt)

/-- `switchChat(chatId)` (script.js 271-278): the pointer is reassigned and
persisted unconditionally; `this.chats.get(chatId).title` then throws when
the id is absent.  The second component reports the error thrown after the
mutation, `none` on success. -/
def switchChat (st : AppState) (chatId : String) : AppState × Option String :=
  let st1 := saveChats { st with currentChatId := some chatId }
  match mapGet st1.chats chatId with
  | some _ => (st1, none)
  | none => (st1, some "TypeError: cannot read properties of undefined")

/-- `clearCurrentChat()` (script.js 919-925): when the active id is present,
empty its message sequence and persist; otherwise do nothing. -/
def clearCurrentChat (st : AppState) : AppState :=
  match st.currentChatId with
  | none => st
  | some cur =>
    if mapHas st.chats cur then
      saveChats (updateCurrent st (fun c => { c with messages := [] }))
    else st

/-- Push of one message onto a conversation record, the record-level effect
of `addMessage` (script.js 520-525). -/
def pushMessage (c : Chat) (m : Message) : Chat :=
  { c with messages := c.messages ++ [m] }

/-- The first user message of a conversation, the value the client passes to
`updateChatTitleFromFirstMessage` (script.js 355: the message the user just
sent, which is `messages[0]` whenever the rewrite condition can hold). -/
def firstUserContent (c : Chat) : String :=
  match c.messages.find? (fun m => m.role == "user") with
  | some m => m.content
  | none => ""

/-- One spec-level `append(id, message)` (spec 4.1) on a conversation
record: the push of `addMessage` followed by the title derivation of
`updateChatTitleFromFirstMessage` applied to the first user message. -/
def appendMessage (c : Chat) (m : Message) : Chat :=
  let c1 := pushMessage c m
  updateTitleChat c1 (firstUserContent c1)

/-- Spec-level `append` on the state: append to the active conversation and
persist (every mutation writes through, spec 3). -/
def appendCurrent (st : AppState) (m : Message) : AppState :=
  saveChats (updateCurrent st (fun c => appendMessage c m))

/-- JS `a || b` for the error fields: the left operand is kept unless it is
absent or the empty string (both falsy). -/
def jsOr (o : Option String) (d : String) : String :=
  match o with
  | some e => if e == "" then d else e
  | none => d

structure ApiBody where
  success : Bool
  content : String
  error : Option String
deriving DecidableEq, Repr

structure HttpResponse where
  ok : Bool
  status : Nat
  statusText : String
  body : ApiBody
deriving DecidableEq, Repr

inductive ChatOutcome where
  | ok (content : String)
  | thrown (message : String)
deriving DecidableEq, Repr

/-- The response handling of `generateAIResponse` (script.js 489-518),
parameterized by the response the `fetch` resolved to.  On a non-2xx status
of 401 the cached credential is cleared (memory and storage), the API-key
modal is opened, and a fixed error is thrown; other failures throw the
server-supplied or fallback message; success returns the content. -/
def generateAIResponse (st : AppState) (resp : HttpResponse) : AppState × ChatOutcome :=
  if !resp.ok then
    if resp.status == 401 then
      ({ st with userApiKey := none,
                 storage := { st.storage with user_api_key := none },
                 apiKeyModalOpen := true },
       ChatOutcome.thrown "API key invalid. Please update your API key.")
    else
      (st, ChatOutcome.thrown (jsOr resp.body.error ("Request failed: " ++ resp.statusText)))
  else if !resp.body.success then
    (st, ChatOutcome.thrown (jsOr resp.body.error "Request failed"))
  else (st, ChatOutcome.ok resp.body.content)

/-- JS `String.prototype.trim()` on the string wrapper. -/
def strTrim (s : String) : String := ⟨jsTrim s.data⟩

/-- `sendMessage()` (script.js 330-361), parameterized by the message-input
value and the response of the chat request.  Guards: an in-flight
generation, a missing credential (opens the modal, appends nothing) and an
empty trimmed input all return early.  Otherwise the user message is
appended first; on success the full response text is appended (the
persistence step of `typeMessage`, script.js 763) and the title derivation
runs; on a thrown failure the catch block appends an assistant-authored
error message. -/
def sendMessage (st : AppState) (input : String) (resp : HttpResponse) : AppState :=
  if st.isGenerating then st
  else if st.userApiKey.isNone then { st with apiKeyModalOpen := true }
  else
    let message := strTrim input
    if message.isEmpty then st
    else
      let st1 := addMessage st "user" message "text"
      match generateAIResponse st1 resp with
      | (st2, ChatOutcome.ok content) =>
        updateChatTitleFromFirstMessage (addMessage st2 "assistant" content "text") message
      | (st2, ChatOutcome.thrown m) =>
        addMessage st2 "assistant" ("Error: " ++ m) "text"

/-- The reveal loop of `typeMessage` (script.js 746-759): one character is
appended to the display per iteration while the generation flag is observed
true; `flag i` is the value of `this.isGenerating` at the check before
unit `i`. -/
def typeLoop (flag : Nat → Bool) : List Char → Nat → List Char
  | [], _ => []
  | ch :: rest, i => if flag i then ch :: typeLoop flag rest (i + 1) else []

structure TypeOutcome where
  displayedAtExit : String
  chat : Chat
deriving DecidableEq, Repr

/-- `typeMessage(content, role, type)` for text content (script.js 724-764):
the displayed string at loop exit, and the conversation after the final
`addMessage(role, content, type)`, which always receives the full content. -/
def typeMessage (flag : Nat → Bool) (c : Chat) (content role ty : String) : TypeOutcome :=
  { displayedAtExit := ⟨typeLoop flag content.data 0⟩,
    chat := pushMessage c { role := role, content := content, type := ty, caption := none } }

/-- A storage with nothing persisted yet. -/
def emptyStorage : LocalStorage :=
  { ai_chats := StoredBlob.absent, current_chat_id := none, user_api_key := none }

/-- The round-trip sequence of spec 8: hydrate a fresh store, `create()` at
time `t1`, then append `m1` and `m2` to the created (active) conversation;
every step writes through to storage. -/
def roundTripState (m1 m2 : Message) (t0 t1 : Nat) : AppState :=
  appendCurrent (appendCurrent (createNewChat (hydrate emptyStorage t0) t1) m1) m2

/-- The conversation record bootstrapped by `createNewChat` at time `now`
(before any message). -/
def bootChat (now : Nat) : Chat :=
  { id := mkChatId now, title := "New Chat", messages := [], mode := "chat", createdAt := now }

/-- The conversation record expected after appending `m1` and `m2` to a
conversation created at `t1`: both messages in order, title derived from the
first user message. -/
def derivedChat (m1 m2 : Message) (t1 : Nat) : Chat :=
  { id := mkChatId t1, title := truncateText m1.content 25, messages := [m1, m2],
    mode := "chat", createdAt := t1 }

/-! Concrete fixtures used to instantiate the theorems below. -/

def chatC1 : Chat :=
  { id := "c1", title := "New Chat", messages := [], mode := "chat", createdAt := 0 }

def msgHello : Message := { role := "user", content := "hello there", type := "text" }

def msgReply : Message := { role := "assistant", content := "hi back", type := "text" }

def chatC2 : Chat :=
  { id := "c2", title := "hello there", messages := [msgHello, msgReply],
    mode := "chat", createdAt := 1 }

/-- A state with one empty active conversation and a configured credential. -/
def stFix : AppState :=
  { chats := [("c1", chatC1)], currentChatId := some "c1", isGenerating := false,
    currentMode := "chat", userApiKey := some "k", apiKeyModalOpen := false,
    storage := emptyStorage }

/-- A state with two conversations, the two-message one active. -/
def stFixB : AppState :=
  { chats := [("c2", chatC2), ("c1", chatC1)], currentChatId := some "c2",
    isGenerating := false, currentMode := "chat", userApiKey := some "k",
    apiKeyModalOpen := false, storage := emptyStorage }

/-- A 401 response to the chat request. -/
def resp401 : HttpResponse :=
  { ok := false, status := 401, statusText := "Unauthorized",
    body := { success := false, content := "", error := some "Invalid API key" } }

/-- A one-message conversation still carrying the sentinel title. -/
def chatW1 : Chat :=
  { id := "w1", title := "New Chat", messages := [msgHello], mode := "chat", createdAt := 5 }

/-- Number of appends in `ms` (performed in order, starting from `c`) after
which the conversation's title differs from the title before that append. -/
def titleRewriteCount (c : Chat) : List Message → Nat
  | [] => 0
  | m :: ms =>
    (if (appendMessage c m).title = c.title then 0 else 1)
      + titleRewriteCount (appendMessage c m) ms

/-! Theorems. -/

/-- C1: the claim states that all raw text destined for code-literal
contexts is HTML-escaped before insertion.  The code violates this: the
inline-code rule (script.js 596) inserts its capture verbatim, so the input
consisting of `<b>` wrapped in backticks renders with a raw `<b>` tag; and a
fenced block containing `<b>` is consumed by the inline-code rule (which
runs before the fence rule), so its body also reaches the output with raw
markup.  The third conjunct shows the fence branch itself does escape its
body (script.js 607), confirming the escaping was intended: the branch is
just unreachable behind the inline pass. -/
theorem formatMessage_code_literal_unescaped :
    formatMessage "`<b>`" = "<code class=\"inline-code\"><b></code>"
    ∧ formatMessage "```\n<b>\n```"
      = "``<code class=\"inline-code\"><br><b><br></code>``"
    ∧ String.mk (codeBlocksCore "```\n<b>\n```".data)
      = String.mk (codeBlockTemplate "text".data "&lt;b&gt;".data) := by
  refine ⟨by decide, by decide, by decide⟩

/-- C2: the claim states that fenced code blocks are extracted and replaced
before any inline emphasis rule runs, so inline rules never transform text
inside a fence.  The code applies the rules in the opposite order
(script.js 588-610): on a fenced block containing `*a*`, the bold rule fires
inside the fence, the inline-code rule then pairs the fence backticks across
the body, and no code-block markup is produced at all. -/
theorem formatMessage_fence_not_extracted_first :
    formatMessage "```\n*a*\n```"
      = "``<code class=\"inline-code\"><br><strong class=\"bold-text\">a</strong><br></code>``" := by
  decide

theorem typeLoopFront (flag : Nat → Bool) (l : List Char) (i : Nat) :
    typeLoop flag l i <+: l := by
  induction l generalizing i with
  | nil => simp [typeLoop]
  | cons c cs ih =>
    simp only [typeLoop]
    split
    · obtain ⟨t, ht⟩ := ih (i + 1)
      exact ⟨t, by simp [ht]⟩
    · exact ⟨c :: cs, rfl⟩

/-- C6: whatever the state of the cancellation flag, the display at loop
exit is a prefix of the full response text, and the message persisted by the
final `addMessage` carries the full untruncated content.  The last conjunct
is the spec scenario: the text of two sentences cancelled after two revealed
units displays the strict prefix consisting of the first two characters. -/
theorem typeMessage_prefix_and_full_persist (flag : Nat → Bool) (c : Chat)
    (content role ty : String) :
    (typeMessage flag c content role ty).displayedAtExit.data <+: content.data
    ∧ (typeMessage flag c content role ty).chat.messages
      = c.messages ++ [{ role := role, content := content, type := ty, caption := none }]
    ∧ (typeMessage (fun i => decide (i < 2)) chatC1 "Hi.\nBye" "assistant" "text").displayedAtExit
      = "Hi" := by
  refine ⟨typeLoopFront flag content.data 0, rfl, by decide⟩

/-- C5 counterexample: switching to an identifier absent from the mapping
does not leave the active pointer and persisted state unchanged.  On a
store whose only key is c1, switching to the absent zz raises (second
component) but only after the pointer and the persisted active id have
already been overwritten with zz. -/
theorem switchChat_absent_id_mutates :
    (switchChat stFix "zz").2.isSome = true
    ∧ (switchChat stFix "zz").1.currentChatId = some "zz"
    ∧ (switchChat stFix "zz").1.storage.current_chat_id = some "zz"
    ∧ stFix.currentChatId = some "c1"
    ∧ stFix.storage.current_chat_id = none := by
  decide

theorem mapGet_isSome_eq_mapHas (m : List (String × Chat)) (k : String) :
    (mapGet m k).isSome = mapHas m k := by
  induction m with
  | nil => rfl
  | cons p ps ih =>
    simp only [mapGet, mapHas, List.find?_cons, List.any_cons] at *
    split
    · simp_all
    · simp_all

/-- C5 as amended: `switchChat(chatId)` reassigns the active pointer to the
requested id and persists it unconditionally, leaving the mapping itself
unchanged; it succeeds exactly when the id is present, and when the id is
absent it raises only after that mutation. -/
theorem switchChat_spec (st : AppState) (chatId : String) :
    (switchChat st chatId).1.currentChatId = some chatId
    ∧ (switchChat st chatId).1.storage.current_chat_id = some chatId
    ∧ (switchChat st chatId).1.chats = st.chats
    ∧ ((switchChat st chatId).2 = none ↔ mapHas st.chats chatId = true) := by
  have h := mapGet_isSome_eq_mapHas st.chats chatId
  have hchats : (saveChats { st with currentChatId := some chatId }).chats = st.chats := rfl
  rcases hg : mapGet st.chats chatId with _ | c
  · rw [hg] at h
    simp only [Option.isSome_none] at h
    simp [switchChat, saveChats, hg, ← h]
  · rw [hg] at h
    simp only [Option.isSome_some] at h
    simp [switchChat, saveChats, hg, ← h]

theorem appendMessage_messages (c : Chat) (m : Message) :
    (appendMessage c m).messages = c.messages ++ [m] := by
  simp only [appendMessage, updateTitleChat, pushMessage]
  split <;> rfl

theorem appendMessage_title (c : Chat) (m : Message) :
    (appendMessage c m).title
      = if c.messages.length = 1 ∧ c.title = "New Chat"
        then truncateText (firstUserContent (pushMessage c m)) 25
        else c.title := by
  by_cases h : c.messages.length = 1 ∧ c.title = "New Chat"
  · rw [if_pos h]
    simp only [appendMessage, updateTitleChat, pushMessage]
    rw [if_pos]
    simp [h.1, h.2]
  · rw [if_neg h]
    simp only [appendMessage, updateTitleChat, pushMessage]
    rw [if_neg]
    simp only [Bool.and_eq_true, beq_iff_eq, List.length_append, List.length_cons,
      List.length_nil]
    rintro ⟨hlen, htitle⟩
    exact h ⟨by omega, htitle⟩

theorem titleRewriteCount_eq_zero (c : Chat) (ms : List Message)
    (h : 2 ≤ c.messages.length) : titleRewriteCount c ms = 0 := by
  induction ms generalizing c with
  | nil => rfl
  | cons m ms ih =>
    have hlen : (appendMessage c m).messages.length = c.messages.length + 1 := by
      rw [appendMessage_messages]; simp
    have htitle : (appendMessage c m).title = c.title := by
      rw [appendMessage_title, if_neg]
      rintro ⟨h1, _⟩
      omega
    have hstep : titleRewriteCount c (m :: ms) = titleRewriteCount (appendMessage c m) ms := by
      simp [titleRewriteCount, htitle]
    rw [hstep]
    exact ih _ (by omega)

theorem titleRewriteCount_le_one (c : Chat) (ms : List Message) :
    titleRewriteCount c ms ≤ 1 := by
  induction ms generalizing c with
  | nil => simp [titleRewriteCount]
  | cons m ms ih =>
    by_cases h1 : c.messages.length = 1
    · have hlen : 2 ≤ (appendMessage c m).messages.length := by
        rw [appendMessage_messages]
        simp
        omega
      have hz := titleRewriteCount_eq_zero (appendMessage c m) ms hlen
      simp only [titleRewriteCount, hz]
      split <;> omega
    · have htitle : (appendMessage c m).title = c.title := by
        rw [appendMessage_title, if_neg]
        rintro ⟨ha, _⟩
        exact h1 ha
      have hstep : titleRewriteCount c (m :: ms) = titleRewriteCount (appendMessage c m) ms := by
        simp [titleRewriteCount, htitle]
      rw [hstep]
      exact ih _

/-- C3: along any sequence of appends the title is rewritten at most once;
an append changes the title only when it is the second message and the
title is still the sentinel, in which case the new title is the first user
message content truncated to 25 characters (ellipsis-suffixed exactly when
truncation occurred, per `truncateText`); once the conversation holds two
or more messages, no further append ever alters the title. -/
theorem conversation_title_rewritten_once (c : Chat) (ms : List Message) (m : Message) :
    titleRewriteCount c ms ≤ 1
    ∧ ((appendMessage c m).title ≠ c.title →
        c.messages.length = 1 ∧ c.title = "New Chat"
          ∧ (appendMessage c m).title = truncateText (firstUserContent (pushMessage c m)) 25)
    ∧ (c.messages.length = 1 → c.title = "New Chat" →
        (appendMessage c m).title = truncateText (firstUserContent (pushMessage c m)) 25)
    ∧ (2 ≤ c.messages.length → (appendMessage c m).title = c.title) := by
  refine ⟨titleRewriteCount_le_one c ms, ?_, ?_, ?_⟩
  · intro hne
    rw [appendMessage_title] at hne ⊢
    by_cases hc : c.messages.length = 1 ∧ c.title = "New Chat"
    · exact ⟨hc.1, hc.2, by rw [if_pos hc]⟩
    · exact absurd rfl (by rwa [if_neg hc] at hne)
  · intro h1 h2
    rw [appendMessage_title, if_pos ⟨h1, h2⟩]
  · intro h2
    rw [appendMessage_title, if_neg]
    rintro ⟨ha, _⟩
    omega

/-- Witness for C3 at concrete inputs: a fresh conversation stays within one
rewrite over two appends; the append bringing a sentinel-titled conversation
to two messages derives the truncated title; an append to a two-message
conversation leaves the title unchanged. -/
theorem conversation_title_rewritten_once_witness :
    titleRewriteCount chatC1 [msgHello, msgReply] ≤ 1
    ∧ (appendMessage chatW1 msgReply).title
      = truncateText (firstUserContent (pushMessage chatW1 msgReply)) 25
    ∧ (appendMessage chatC2 msgHello).title = chatC2.title := by
  refine ⟨(conversation_title_rewritten_once chatC1 [msgHello, msgReply] msgHello).1,
    (conversation_title_rewritten_once chatW1 [] msgReply).2.2.1 (by decide) (by decide),
    (conversation_title_rewritten_once chatC2 [] msgHello).2.2.2 (by decide)⟩

@[simp] theorem saveChats_chats (st : AppState) : (saveChats st).chats = st.chats := rfl

@[simp] theorem saveChats_currentChatId (st : AppState) :
    (saveChats st).currentChatId = st.currentChatId := rfl

@[simp] theorem saveChats_userApiKey (st : AppState) :
    (saveChats st).userApiKey = st.userApiKey := rfl

@[simp] theorem saveChats_apiKeyModalOpen (st : AppState) :
    (saveChats st).apiKeyModalOpen = st.apiKeyModalOpen := rfl

@[simp] theorem saveChats_isGenerating (st : AppState) :
    (saveChats st).isGenerating = st.isGenerating := rfl

@[simp] theorem saveChats_currentMode (st : AppState) :
    (saveChats st).currentMode = st.currentMode := rfl

@[simp] theorem updateCurrent_currentChatId (st : AppState) (f : Chat → Chat) :
    (updateCurrent st f).currentChatId = st.currentChatId := by
  unfold updateCurrent
  rcases h : st.currentChatId with _ | cur <;> simp [h]

@[simp] theorem updateCurrent_userApiKey (st : AppState) (f : Chat → Chat) :
    (updateCurrent st f).userApiKey = st.userApiKey := by
  unfold updateCurrent
  rcases h : st.currentChatId with _ | cur <;> simp [h]

@[simp] theorem updateCurrent_apiKeyModalOpen (st : AppState) (f : Chat → Chat) :
    (updateCurrent st f).apiKeyModalOpen = st.apiKeyModalOpen := by
  unfold updateCurrent
  rcases h : st.currentChatId with _ | cur <;> simp [h]

@[simp] theorem updateCurrent_isGenerating (st : AppState) (f : Chat → Chat) :
    (updateCurrent st f).isGenerating = st.isGenerating := by
  unfold updateCurrent
  rcases h : st.currentChatId with _ | cur <;> simp [h]

@[simp] theorem updateCurrent_storage (st : AppState) (f : Chat → Chat) :
    (updateCurrent st f).storage = st.storage := by
  unfold updateCurrent
  rcases h : st.currentChatId with _ | cur <;> simp [h]

theorem mapGet_update (m : List (String × Chat)) (cur k : String) (f : Chat → Chat) :
    mapGet (m.map fun p => if p.1 == cur then (p.1, f p.2) else p) k
      = if k == cur then (mapGet m k).map f else mapGet m k := by
  induction m with
  | nil =>
    simp only [List.map_nil, mapGet, List.find?_nil, Option.map_none]
    split <;> rfl
  | cons p ps ih =>
    by_cases hpc : p.1 = cur <;> by_cases hpk : p.1 = k <;>
      simp_all [mapGet, List.find?_cons] <;>
      split <;> simp_all

/-- Lookup in the mapping after an in-place mutation of the active
conversation: the active record is transformed, every other key reads as
before. -/
theorem updateCurrent_chats_get (st : AppState) (f : Chat → Chat) (cur k : String)
    (h : st.currentChatId = some cur) :
    mapGet (updateCurrent st f).chats k
      = if k == cur then (mapGet st.chats k).map f else mapGet st.chats k := by
  unfold updateCurrent
  rw [h]
  exact mapGet_update st.chats cur k f

/-- C10: clearing the active conversation replaces only its message
sequence: the identifier, title, creation timestamp and mode tag survive,
every other conversation's lookup is untouched, and the active pointer is
unchanged. -/
theorem clearCurrentChat_frame (st : AppState) (cur : String) (c : Chat)
    (h1 : st.currentChatId = some cur) (h2 : mapGet st.chats cur = some c) :
    (clearCurrentChat st).currentChatId = some cur
    ∧ mapGet (clearCurrentChat st).chats cur
      = some { id := c.id, title := c.title, messages := [], mode := c.mode,
               createdAt := c.createdAt }
    ∧ (∀ k, k ≠ cur → mapGet (clearCurrentChat st).chats k = mapGet st.chats k) := by
  have hhas : mapHas st.chats cur = true := by
    rw [← mapGet_isSome_eq_mapHas, h2]
    rfl
  have hred : clearCurrentChat st
      = saveChats (updateCurrent st (fun c => { c with messages := [] })) := by
    unfold clearCurrentChat
    rw [h1]
    simp [hhas]
  rw [hred]
  refine ⟨by simp [h1], ?_, ?_⟩
  · rw [saveChats_chats, updateCurrent_chats_get st _ cur cur h1, if_pos (by simp), h2]
    rfl
  · intro k hk
    rw [saveChats_chats, updateCurrent_chats_get st _ cur k h1, if_neg (by simpa using hk)]

/-- Witness for C10 on a concrete two-conversation store. -/
theorem clearCurrentChat_frame_witness :
    (clearCurrentChat stFixB).currentChatId = some "c2"
    ∧ mapGet (clearCurrentChat stFixB).chats "c2"
      = some { id := "c2", title := "hello there", messages := [], mode := "chat",
               createdAt := 1 }
    ∧ mapGet (clearCurrentChat stFixB).chats "c1" = mapGet stFixB.chats "c1" := by
  obtain ⟨a, b, d⟩ := clearCurrentChat_frame stFixB "c2" chatC2 rfl (by decide)
  exact ⟨a, b, d "c1" (by decide)⟩

@[simp] theorem saveChats_user_api_key (st : AppState) :
    (saveChats st).storage.user_api_key = st.storage.user_api_key := rfl

@[simp] theorem addMessage_currentChatId (st : AppState) (role content ty : String) :
    (addMessage st role content ty).currentChatId = st.currentChatId := by
  simp [addMessage]

@[simp] theorem addMessage_userApiKey (st : AppState) (role content ty : String) :
    (addMessage st role content ty).userApiKey = st.userApiKey := by
  simp [addMessage]

@[simp] theorem addMessage_apiKeyModalOpen (st : AppState) (role content ty : String) :
    (addMessage st role content ty).apiKeyModalOpen = st.apiKeyModalOpen := by
  simp [addMessage]

@[simp] theorem addMessage_user_api_key (st : AppState) (role content ty : String) :
    (addMessage st role content ty).storage.user_api_key = st.storage.user_api_key := by
  simp [addMessage]

theorem addMessage_chats_get (st : AppState) (role content ty : String) (cur k : String)
    (h : st.currentChatId = some cur) :
    mapGet (addMessage st role content ty).chats k
      = if k == cur
        then (mapGet st.chats k).map
          (fun c => { c with messages :=
            c.messages ++ [{ role := role, content := content, type := ty, caption := none }] })
        else mapGet st.chats k := by
  simp only [addMessage, saveChats_chats]
  exact updateCurrent_chats_get st _ cur k h

theorem generateAIResponse_401 (st : AppState) (resp : HttpResponse)
    (hok : resp.ok = false) (hst : resp.status = 401) :
    generateAIResponse st resp
      = ({ st with userApiKey := none,
                   storage := { st.storage with user_api_key := none },
                   apiKeyModalOpen := true },
         ChatOutcome.thrown "API key invalid. Please update your API key.") := by
  unfold generateAIResponse
  rw [hok, hst]
  simp

/-- C4 counterexample: on a concrete store with an empty active
conversation, a 401 chat failure clears the credential and opens the
API-key modal, but the active conversation does not stay free of appended
messages: it ends holding the user message appended before dispatch and an
assistant-authored error message, where the claim requires no message to be
appended by the failed operation. -/
theorem sendMessage_401_appends_counterexample :
    (sendMessage stFix "hi" resp401).userApiKey = none
    ∧ (sendMessage stFix "hi" resp401).apiKeyModalOpen = true
    ∧ (mapGet stFix.chats "c1").map (fun c => c.messages) = some []
    ∧ (mapGet (sendMessage stFix "hi" resp401).chats "c1").map (fun c => c.messages)
      = some [{ role := "user", content := "hi", type := "text", caption := none },
              { role := "assistant",
                content := "Error: API key invalid. Please update your API key.",
                type := "text", caption := none }] := by
  refine ⟨by decide, by decide, by decide, by decide⟩

/-- C4 as amended: when the chat request fails with HTTP 401 the
orchestrator clears the cached credential (memory and storage) and signals
the caller to re-prompt by opening the API-key modal, but the failed
operation does append to the active conversation: the user message appended
before dispatch remains, and the catch block of `sendMessage`
(script.js 357-360) appends an assistant-authored error message. -/
theorem sendMessage_401_spec (st : AppState) (input : String) (resp : HttpResponse)
    (cur : String) (c : Chat)
    (hg : st.isGenerating = false)
    (hk : st.userApiKey.isSome = true)
    (hm : (strTrim input).isEmpty = false)
    (hok : resp.ok = false)
    (hst : resp.status = 401)
    (hcur : st.currentChatId = some cur)
    (hc : mapGet st.chats cur = some c) :
    (sendMessage st input resp).userApiKey = none
    ∧ (sendMessage st input resp).storage.user_api_key = none
    ∧ (sendMessage st input resp).apiKeyModalOpen = true
    ∧ mapGet (sendMessage st input resp).chats cur
      = some { c with messages := c.messages
          ++ [{ role := "user", content := strTrim input, type := "text", caption := none },
              { role := "assistant",
                content := "Error: API key invalid. Please update your API key.",
                type := "text", caption := none }] } := by
  have h401 := generateAIResponse_401 (addMessage st "user" (strTrim input) "text") resp hok hst
  have hred : sendMessage st input resp
      = addMessage
          { addMessage st "user" (strTrim input) "text" with
              userApiKey := none,
              storage := { (addMessage st "user" (strTrim input) "text").storage with
                            user_api_key := none },
              apiKeyModalOpen := true }
          "assistant" ("Error: " ++ "API key invalid. Please update your API key.") "text" := by
    obtain ⟨key, hkey⟩ := Option.isSome_iff_exists.mp hk
    unfold sendMessage
    rw [hg, hkey]
    simp only [hm, h401, Bool.false_eq_true, if_false, Option.isNone_some]
  rw [hred]
  refine ⟨by simp, by simp, by simp, ?_⟩
  rw [addMessage_chats_get _ _ _ _ cur _ (by simp [hcur]), if_pos (by simp),
    addMessage_chats_get _ _ _ _ cur _ (by simp [hcur]), if_pos (by simp), hc]
  simp

/-- Witness for C4 at the concrete 401 scenario. -/
theorem sendMessage_401_spec_witness :
    (sendMessage stFix "hi" resp401).userApiKey = none
    ∧ (sendMessage stFix "hi" resp401).storage.user_api_key = none
    ∧ (sendMessage stFix "hi" resp401).apiKeyModalOpen = true
    ∧ mapGet (sendMessage stFix "hi" resp401).chats "c1"
      = some { chatC1 with messages := chatC1.messages
          ++ [{ role := "user", content := strTrim "hi", type := "text", caption := none },
              { role := "assistant",
                content := "Error: API key invalid. Please update your API key.",
                type := "text", caption := none }] } :=
  sendMessage_401_spec stFix "hi" resp401 "c1" chatC1 rfl rfl (by decide) rfl rfl rfl
    (by decide)

theorem hydrate_reduces (storage : LocalStorage) (now : Nat)
    (h : storage.ai_chats = StoredBlob.malformed ∨ storage.ai_chats = StoredBlob.absent
        ∨ storage.ai_chats = StoredBlob.valid []) :
    hydrate storage now = createNewChat (initialState storage) now := by
  unfold hydrate loadChats
  rcases hcur : storage.current_chat_id with _ | cur <;>
    rcases h with h | h | h <;>
      simp [initialState, h, hcur, mapHas, mapFromArray]

/-- C7: hydration never raises (the catch block turns a malformed blob into
an empty mapping, embedded here as a total function); on a malformed, absent
or empty blob the store bootstraps exactly one empty sentinel-titled
conversation, that conversation becomes active, and a subsequent listing
yields exactly that conversation. -/
theorem hydrate_bootstrap (storage : LocalStorage) (now : Nat)
    (h : storage.ai_chats = StoredBlob.malformed ∨ storage.ai_chats = StoredBlob.absent
        ∨ storage.ai_chats = StoredBlob.valid []) :
    listChats (hydrate storage now)
      = [{ id := mkChatId now, title := "New Chat", messages := [], mode := "chat",
           createdAt := now }]
    ∧ (hydrate storage now).currentChatId = some (mkChatId now)
    ∧ mapGet (hydrate storage now).chats (mkChatId now)
      = some { id := mkChatId now, title := "New Chat", messages := [], mode := "chat",
               createdAt := now } := by
  rw [hydrate_reduces storage now h]
  unfold createNewChat initialState mapSet listChats saveChats mapGet
  simp [List.mergeSort_singleton]

/-- Witness for C7 on a malformed blob with a stale active id. -/
theorem hydrate_bootstrap_witness :
    listChats (hydrate { ai_chats := StoredBlob.malformed, current_chat_id := some "c9",
                         user_api_key := none } 3)
      = [{ id := "chat_3", title := "New Chat", messages := [], mode := "chat", createdAt := 3 }]
    ∧ (hydrate { ai_chats := StoredBlob.malformed, current_chat_id := some "c9",
                 user_api_key := none } 3).currentChatId = some "chat_3" := by
  have h := hydrate_bootstrap
    { ai_chats := StoredBlob.malformed, current_chat_id := some "c9", user_api_key := none } 3
    (Or.inl rfl)
  exact ⟨h.1, h.2.1⟩

theorem roundTripState_eq (m1 m2 : Message) (t0 t1 : Nat)
    (h1 : m1.role = "user") (hne : mkChatId t1 ≠ mkChatId t0) :
    roundTripState m1 m2 t0 t1
      = { chats := [(mkChatId t0, bootChat t0), (mkChatId t1, derivedChat m1 m2 t1)],
          currentChatId := some (mkChatId t1), isGenerating := false, currentMode := "chat",
          userApiKey := none, apiKeyModalOpen := false,
          storage := { ai_chats := StoredBlob.valid [bootChat t0, derivedChat m1 m2 t1],
                       current_chat_id := some (mkChatId t1), user_api_key := none } } := by
  have hb1 : (mkChatId t0 == mkChatId t1) = false := by
    rw [beq_eq_false_iff_ne]
    exact fun he => hne he.symm
  have hu : (m1.role == "user") = true := by
    rw [beq_iff_eq]
    exact h1
  have hprop : ¬ mkChatId t0 = mkChatId t1 := fun he => hne he.symm
  have hred := hydrate_reduces emptyStorage t0 (Or.inr (Or.inl rfl))
  unfold roundTripState
  rw [hred]
  simp [createNewChat, initialState, emptyStorage, mapSet, saveChats, appendCurrent,
    updateCurrent, appendMessage, updateTitleChat, pushMessage, firstUserContent,
    List.find?, hb1, hu, hprop, h1, bootChat, derivedChat]

/-- C8: the persistence round trip.  From a freshly hydrated empty store,
`create()` followed by appending `m1` and `m2` (with write-through
persistence at every step), then hydrating a fresh instance from the
resulting storage, produces a store whose listing contains the conversation
with messages exactly `[m1, m2]` in that order and the title derived from
`m1` by `truncateText`; that conversation is also the restored active one. -/
theorem persistence_round_trip (m1 m2 : Message) (t0 t1 t2 : Nat)
    (h1 : m1.role = "user") (hne : mkChatId t1 ≠ mkChatId t0) :
    ({ id := mkChatId t1, title := truncateText m1.content 25, messages := [m1, m2],
       mode := "chat", createdAt := t1 } : Chat)
      ∈ listChats (hydrate (roundTripState m1 m2 t0 t1).storage t2)
    ∧ (hydrate (roundTripState m1 m2 t0 t1).storage t2).currentChatId
      = some (mkChatId t1) := by
  have hprop : ¬ mkChatId t0 = mkChatId t1 := fun he => hne he.symm
  have hne_empty : ¬ mkChatId t1 = "" := by
    intro he
    have hlen := congrArg String.length he
    have h5 : "chat_".length = 5 := rfl
    have h0 : ("" : String).length = 0 := rfl
    rw [mkChatId, String.length_append, h5, h0] at hlen
    omega
  have hhyd : hydrate { ai_chats := StoredBlob.valid [bootChat t0, derivedChat m1 m2 t1],
                        current_chat_id := some (mkChatId t1), user_api_key := none } t2
      = { chats := [(mkChatId t0, bootChat t0), (mkChatId t1, derivedChat m1 m2 t1)],
          currentChatId := some (mkChatId t1), isGenerating := false, currentMode := "chat",
          userApiKey := none, apiKeyModalOpen := false,
          storage := { ai_chats := StoredBlob.valid [bootChat t0, derivedChat m1 m2 t1],
                       current_chat_id := some (mkChatId t1), user_api_key := none } } := by
    unfold hydrate loadChats initialState
    simp [mapFromArray, mapSet, mapHas, hprop, hne_empty, bootChat, derivedChat]
  simp only [roundTripState_eq m1 m2 t0 t1 h1 hne]
  rw [hhyd]
  constructor
  · unfold listChats
    apply List.mem_mergeSort.mpr
    simp [derivedChat]
  · rfl

theorem replaceWrapF_id {d : Char} {pre post : List Char} (fuel : Nat) (s : List Char)
    (h : ∀ c ∈ s, ¬ c = d) : replaceWrapF d pre post fuel s = s := by
  induction fuel generalizing s with
  | zero => cases s <;> rfl
  | succ fuel ih =>
    cases s with
    | nil => rfl
    | cons c cs =>
      unfold replaceWrapF
      have hcd : ¬ (c == d) = true := by
        simp only [beq_iff_eq]
        exact h c (List.mem_cons_self c cs)
      rw [if_neg hcd, ih cs fun x hx => h x (List.mem_cons_of_mem c hx)]

theorem boldCoreF_id (fuel : Nat) (s : List Char)
    (h : ∀ c ∈ s, ¬ c = '*') : boldCoreF fuel s = s := by
  induction fuel generalizing s with
  | zero => cases s <;> rfl
  | succ fuel ih =>
    cases s with
    | nil => rfl
    | cons c cs =>
      unfold boldCoreF
      have hcd : ¬ (c == '*') = true := by
        simp only [beq_iff_eq]
        exact h c (List.mem_cons_self c cs)
      rw [if_neg hcd, ih cs fun x hx => h x (List.mem_cons_of_mem c hx)]

theorem codeBlocksCoreF_id (fuel : Nat) (s : List Char)
    (h : ∀ c ∈ s, ¬ c = btChar) : codeBlocksCoreF fuel s = s := by
  induction fuel generalizing s with
  | zero => cases s <;> rfl
  | succ fuel ih =>
    cases s with
    | nil => rfl
    | cons c cs =>
      unfold codeBlocksCoreF
      have hcd : ¬ (c == btChar && [btChar, btChar].isPrefixOf cs) = true := by
        simp only [Bool.and_eq_true, beq_iff_eq]
        rintro ⟨hc, -⟩
        exact h c (List.mem_cons_self c cs) hc
      rw [if_neg hcd, ih cs fun x hx => h x (List.mem_cons_of_mem c hx)]

theorem boldCore_id {s : List Char} (h : ∀ c ∈ s, ¬ c = '*') : boldCore s = s :=
  boldCoreF_id _ _ h

theorem replaceWrap_id {d : Char} {pre post : List Char} {s : List Char}
    (h : ∀ c ∈ s, ¬ c = d) : replaceWrap d pre post s = s :=
  replaceWrapF_id _ _ h

theorem codeBlocksCore_id {s : List Char} (h : ∀ c ∈ s, ¬ c = btChar) :
    codeBlocksCore s = s :=
  codeBlocksCoreF_id _ _ h

theorem quoteLine_id {l : List Char} (h : ¬ "> ".data <+: l) : quoteLine l = l := by
  unfold quoteLine
  rw [if_neg (by simpa [List.isPrefixOf_iff_prefix] using h)]

theorem listLine_id {l : List Char} (h : ¬ "- ".data <+: l) : listLine l = l := by
  unfold listLine
  rw [if_neg (by simpa [List.isPrefixOf_iff_prefix] using h)]

theorem containLine_id {l : List Char}
    (h : splitAtSub "<li class=\"list-item\">".data l = none) : containLine l = l := by
  unfold containLine
  rw [h]

theorem dropWhile_head_false {p : Char → Bool} {l : List Char} {x : Char} {rest : List Char}
    (h : l.dropWhile p = x :: rest) : p x = false := by
  induction l with
  | nil => simp [List.dropWhile] at h
  | cons c cs ih =>
    rw [List.dropWhile_cons] at h
    split at h
    · exact ih h
    · rename_i hc
      cases h
      simpa using hc

/-- Per-line transforms that are the identity on every infix of `s` leave
`s` unchanged (the lines visited by `mapLinesF` are all infixes of `s`). -/
theorem mapLinesF_id (f : List Char → List Char) (fuel : Nat) (s : List Char)
    (hf : ∀ t, t <:+: s → f t = t) : mapLinesF f fuel s = s := by
  induction fuel generalizing s with
  | zero => exact hf s (List.infix_refl s)
  | succ fuel ih =>
    unfold mapLinesF
    cases hdw : s.dropWhile (fun c => c != '\n') with
    | nil =>
      have ht : s.takeWhile (fun c => c != '\n') = s := by
        have happ := List.takeWhile_append_dropWhile (fun c => c != '\n') s
        rw [hdw, List.append_nil] at happ
        exact happ
      rw [ht]
      exact hf s (List.infix_refl s)
    | cons x rest =>
      have hx : x = '\n' := by
        have := dropWhile_head_false hdw
        simpa using this
      subst hx
      have hs : s.takeWhile (fun c => c != '\n') ++ '\n' :: rest = s := by
        conv_rhs => rw [← List.takeWhile_append_dropWhile (fun c => c != '\n') s]
        rw [hdw]
      have hsuf : rest <:+ s :=
        ⟨s.takeWhile (fun c => c != '\n') ++ ['\n'], by
          rw [List.append_assoc]
          exact hs⟩
      show f (s.takeWhile (fun c => c != '\n')) ++ '\n' :: mapLinesF f fuel rest = s
      rw [ih rest fun t htr => hf t (htr.trans hsuf.isInfix),
        hf (s.takeWhile (fun c => c != '\n')) (List.takeWhile_prefix _).isInfix]
      exact hs

theorem linesOkF_head {fuel : Nat} {s : List Char} (h : linesOkF fuel s = true) :
    ¬ "- ".data <+: s := by
  intro hpre
  have hpre' := List.isPrefixOf_iff_prefix.mpr hpre
  cases fuel <;>
    (rw [linesOkF] at h; rw [hpre'] at h; simp at h)

/-- `mapLines listLine` is the identity when no line opens a list item. -/
theorem mapLinesF_listLine_id (fuel : Nat) (s : List Char)
    (h : linesOkF fuel s = true) : mapLinesF listLine fuel s = s := by
  induction fuel generalizing s with
  | zero => exact listLine_id (linesOkF_head h)
  | succ fuel ih =>
    have h1 := linesOkF_head h
    rw [linesOkF, Bool.and_eq_true] at h
    obtain ⟨-, h2⟩ := h
    unfold mapLinesF
    cases hdw : s.dropWhile (fun c => c != '\n') with
    | nil =>
      have ht : s.takeWhile (fun c => c != '\n') = s := by
        have happ := List.takeWhile_append_dropWhile (fun c => c != '\n') s
        rw [hdw, List.append_nil] at happ
        exact happ
      rw [ht]
      exact listLine_id h1
    | cons x rest =>
      rw [hdw] at h2
      simp only [] at h2
      have hx : x = '\n' := by
        have := dropWhile_head_false hdw
        simpa using this
      subst hx
      have hs : s.takeWhile (fun c => c != '\n') ++ '\n' :: rest = s := by
        conv_rhs => rw [← List.takeWhile_append_dropWhile (fun c => c != '\n') s]
        rw [hdw]
      have hline : listLine (s.takeWhile (fun c => c != '\n'))
          = s.takeWhile (fun c => c != '\n') := by
        apply listLine_id
        intro hpre
        exact h1 (hpre.trans (List.takeWhile_prefix _))
      show listLine (s.takeWhile (fun c => c != '\n')) ++ '\n' :: mapLinesF listLine fuel rest
        = s
      rw [ih rest h2, hline]
      exact hs

theorem mapLines_no_newline (f : List Char → List Char) (t : List Char)
    (h : ∀ c ∈ t, ¬ c = '\n') : mapLines f t = f t := by
  unfold mapLines
  cases t with
  | nil => rfl
  | cons c cs =>
    have hdw : (c :: cs).dropWhile (fun c => c != '\n') = [] :=
      List.dropWhile_eq_nil_iff.mpr (fun x hx => by simpa using h x hx)
    have ht : (c :: cs).takeWhile (fun c => c != '\n') = c :: cs :=
      List.takeWhile_eq_self_iff.mpr (fun x hx => by simpa using h x hx)
    show mapLinesF f (cs.length + 1) (c :: cs) = f (c :: cs)
    unfold mapLinesF
    rw [hdw, ht]

theorem mem_brAll {c : Char} {s : List Char} (h : c ∈ brAll s) :
    (c ∈ s ∧ ¬ c = '\n') ∨ c ∈ "<br>".data := by
  induction s with
  | nil => simp [brAll] at h
  | cons x xs ih =>
    unfold brAll at h
    rw [List.mem_append] at h
    rcases h with h | h
    · split at h
      · exact Or.inr h
      · rename_i hx
        simp only [List.mem_singleton] at h
        subst h
        exact Or.inl ⟨List.mem_cons_self _ _, by simpa using hx⟩
    · rcases ih h with ⟨h1, h2⟩ | h1
      · exact Or.inl ⟨List.mem_cons_of_mem _ h1, h2⟩
      · exact Or.inr h1

theorem brAll_id {s : List Char} (h : ∀ c ∈ s, ¬ c = '\n') : brAll s = s := by
  induction s with
  | nil => rfl
  | cons c cs ih =>
    unfold brAll
    rw [if_neg (by simp only [beq_iff_eq]; exact h c (List.mem_cons_self c cs)),
      ih fun x hx => h x (List.mem_cons_of_mem c hx)]
    rfl

theorem splitAtSub_cons_none {pat : List Char} {c : Char} {l : List Char}
    (h1 : pat.isPrefixOf (c :: l) = false) (h2 : splitAtSub pat l = none) :
    splitAtSub pat (c :: l) = none := by
  unfold splitAtSub
  rw [h1, h2]
  simp

theorem splitAtSub_liTag_none {s : List Char} (h : ∀ c ∈ s, ¬ c = '<') :
    splitAtSub "<li class=\"list-item\">".data s = none := by
  induction s with
  | nil => rfl
  | cons c cs ih =>
    apply splitAtSub_cons_none ?_ (ih fun x hx => h x (List.mem_cons_of_mem c hx))
    have hlt : ('<' == c) = false := by
      rw [beq_eq_false_iff_ne]
      exact fun he => h c (List.mem_cons_self c cs) he.symm
    show (('<' == c) && _) = false
    rw [hlt]
    rfl

theorem splitAtSub_liTag_brAll {s : List Char} (h : ∀ c ∈ s, ¬ c = '<') :
    splitAtSub "<li class=\"list-item\">".data (brAll s) = none := by
  induction s with
  | nil => rfl
  | cons c cs ih =>
    have ih' := ih fun x hx => h x (List.mem_cons_of_mem c hx)
    unfold brAll
    by_cases hc : c = '\n'
    · subst hc
      show splitAtSub "<li class=\"list-item\">".data ('<' :: 'b' :: 'r' :: '>' :: brAll cs)
        = none
      exact splitAtSub_cons_none rfl (splitAtSub_cons_none rfl (splitAtSub_cons_none rfl
        (splitAtSub_cons_none rfl ih')))
    · rw [if_neg (by simp only [beq_iff_eq]; exact hc)]
      apply splitAtSub_cons_none ?_ ih'
      have hlt : ('<' == c) = false := by
        rw [beq_eq_false_iff_ne]
        exact fun he => h c (List.mem_cons_self c cs) he.symm
      show (('<' == c) && _) = false
      rw [hlt]
      rfl

/-- First pass on plain text: every rule except the newline conversion is
the identity, so the renderer only rewrites newlines to break tags. -/
theorem formatMessageL_plain (s : List Char)
    (hp : ∀ c ∈ s, plainChar c = true) (hl : linesOkF s.length s = true) :
    formatMessageL s = brAll s := by
  have hchar : ∀ (d : Char), plainChar d = false → ∀ c ∈ s, ¬ c = d := by
    intro d hd c hc he
    subst he
    rw [hp c hc] at hd
    exact absurd hd (by decide)
  have hmono : ∀ (d : Char), plainChar d = false → ∀ t, t <:+: s → ∀ c ∈ t, ¬ c = d :=
    fun d hd t ht c hc => hchar d hd c (ht.subset hc)
  have hquote : ∀ t, t <:+: s → quoteLine t = t := by
    intro t ht
    apply quoteLine_id
    intro hpre
    exact hmono '>' (by decide) t ht '>' (hpre.subset (by decide)) rfl
  have hcontain : ∀ t, t <:+: s → containLine t = t := by
    intro t ht
    exact containLine_id (splitAtSub_liTag_none (hmono '<' (by decide) t ht))
  unfold formatMessageL
  rw [boldCore_id (hchar '*' (by decide))]
  simp only [italicL, strikeL, inlineCodeL]
  rw [replaceWrap_id (hchar '_' (by decide)), replaceWrap_id (hchar '~' (by decide)),
    replaceWrap_id (hchar btChar (by decide)), codeBlocksCore_id (hchar btChar (by decide))]
  unfold mapLines
  rw [mapLinesF_id quoteLine _ s hquote, mapLinesF_listLine_id _ s hl,
    mapLinesF_id containLine _ s hcontain]

/-- Second pass: the output of the first pass on plain text (the input with
newlines turned into break tags) is a fixed point of the renderer. -/
theorem formatMessageL_brAll (s : List Char)
    (hp : ∀ c ∈ s, plainChar c = true) (hl : linesOkF s.length s = true) :
    formatMessageL (brAll s) = brAll s := by
  have htc : ∀ c ∈ brAll s, (c ∈ s ∧ ¬ c = '\n') ∨ c ∈ "<br>".data :=
    fun c hc => mem_brAll hc
  have hno_nl : ∀ c ∈ brAll s, ¬ c = '\n' := by
    intro c hc he
    subst he
    rcases htc _ hc with ⟨-, h2⟩ | h2
    · exact h2 rfl
    · simp at h2
  have hnot : ∀ (d : Char), plainChar d = false → ¬ d ∈ "<br>".data →
      ∀ c ∈ brAll s, ¬ c = d := by
    intro d hd hbr c hc he
    subst he
    rcases htc _ hc with ⟨h1, -⟩ | h1
    · rw [hp _ h1] at hd
      exact absurd hd (by decide)
    · exact hbr h1
  have hq : ¬ "> ".data <+: brAll s := by
    intro hpre
    rcases s with _ | ⟨c, cs⟩
    · simp [brAll] at hpre
    · unfold brAll at hpre
      by_cases hc : c = '\n'
      · subst hc
        replace hpre : "> ".data <+: '<' :: 'b' :: 'r' :: '>' :: brAll cs := hpre
        rcases List.cons_prefix_cons.mp hpre with ⟨he, -⟩
        simp at he
      · rw [if_neg (by simp only [beq_iff_eq]; exact hc)] at hpre
        rcases List.cons_prefix_cons.mp hpre with ⟨he, -⟩
        have := hp c (List.mem_cons_self c cs)
        rw [← he] at this
        simp [plainChar] at this
  have hlst : ¬ "- ".data <+: brAll s := by
    intro hpre
    rcases s with _ | ⟨c, cs⟩
    · simp [brAll] at hpre
    · unfold brAll at hpre
      by_cases hc : c = '\n'
      · subst hc
        replace hpre : "- ".data <+: '<' :: 'b' :: 'r' :: '>' :: brAll cs := hpre
        rcases List.cons_prefix_cons.mp hpre with ⟨he, -⟩
        simp at he
      · rw [if_neg (by simp only [beq_iff_eq]; exact hc)] at hpre
        rcases List.cons_prefix_cons.mp hpre with ⟨he, htail⟩
        subst he
        rcases cs with _ | ⟨c2, cs2⟩
        · simp [brAll] at htail
        · unfold brAll at htail
          by_cases hc2 : c2 = '\n'
          · subst hc2
            replace htail : [' '] <+: '<' :: 'b' :: 'r' :: '>' :: brAll cs2 := htail
            rcases List.cons_prefix_cons.mp htail with ⟨he2, -⟩
            simp at he2
          · rw [if_neg (by simp only [beq_iff_eq]; exact hc2)] at htail
            rcases List.cons_prefix_cons.mp htail with ⟨he2, -⟩
            subst he2
            exact linesOkF_head hl
              (List.cons_prefix_cons.mpr ⟨rfl,
                List.cons_prefix_cons.mpr ⟨rfl, List.nil_prefix⟩⟩)
  have hchar : ∀ (d : Char), plainChar d = false → ∀ c ∈ s, ¬ c = d := by
    intro d hd c hc he
    subst he
    rw [hp c hc] at hd
    exact absurd hd (by decide)
  have hct : splitAtSub "<li class=\"list-item\">".data (brAll s) = none :=
    splitAtSub_liTag_brAll (hchar '<' (by decide))
  unfold formatMessageL
  rw [boldCore_id (hnot '*' (by decide) (by decide))]
  simp only [italicL, strikeL, inlineCodeL]
  rw [replaceWrap_id (hnot '_' (by decide) (by decide)),
    replaceWrap_id (hnot '~' (by decide) (by decide)),
    replaceWrap_id (hnot btChar (by decide) (by decide)),
    codeBlocksCore_id (hnot btChar (by decide) (by decide))]
  rw [mapLines_no_newline quoteLine _ hno_nl, quoteLine_id hq,
    mapLines_no_newline listLine _ hno_nl, listLine_id hlst,
    mapLines_no_newline containLine _ hno_nl, containLine_id hct,
    brAll_id hno_nl]

theorem brAll_ne_nil {s : List Char} (h : s ≠ []) : brAll s ≠ [] := by
  cases s with
  | nil => exact absurd rfl h
  | cons c cs =>
    unfold brAll
    split <;> simp

/-- C9: the renderer is idempotent on plain text.  On such input the only
rewrite the renderer performs is the newline-to-break conversion (second
conjunct), so re-rendering the already-rendered text changes nothing: in
particular nothing is double-escaped (no escaping happens outside the
fenced-block branch at all) and no markup produced by the first application
is corrupted. -/
theorem formatMessage_idempotent_plain (s : String) (h : plainText s = true) :
    formatMessage (formatMessage s) = formatMessage s
    ∧ formatMessage s = String.mk (brAll s.data) := by
  rw [plainText, Bool.and_eq_true] at h
  obtain ⟨hp', hl⟩ := h
  have hp : ∀ c ∈ s.data, plainChar c = true := fun c hc => List.all_eq_true.mp hp' c hc
  by_cases hs : s.isEmpty
  · have hempty : s = "" := (String.isEmpty_iff s).mp hs
    subst hempty
    exact ⟨rfl, rfl⟩
  · have hdata : s.data ≠ [] := by
      intro hd
      exact hs ((String.isEmpty_iff s).mpr (String.ext (hd : s.data = ("" : String).data)))
    have h1 := formatMessageL_plain s.data hp hl
    have h2 := formatMessageL_brAll s.data hp hl
    have hFs : formatMessage s = ⟨brAll s.data⟩ := by
      unfold formatMessage
      rw [if_neg hs, h1]
    have hne2 : ¬ (String.mk (brAll s.data)).isEmpty = true := by
      intro he
      have := congrArg String.data ((String.isEmpty_iff _).mp he)
      exact brAll_ne_nil hdata this
    have hFt : formatMessage ⟨brAll s.data⟩ = ⟨brAll s.data⟩ := by
      unfold formatMessage
      rw [if_neg hne2]
      exact congrArg String.mk h2
    refine ⟨?_, hFs⟩
    rw [hFs, hFt]

/-- Witness for C9 on a concrete two-line plain text. -/
theorem formatMessage_idempotent_plain_witness :
    plainText "hello there.\ngoodbye, all" = true
    ∧ formatMessage (formatMessage "hello there.\ngoodbye, all")
      = formatMessage "hello there.\ngoodbye, all" :=
  ⟨by decide, (formatMessage_idempotent_plain "hello there.\ngoodbye, all" (by decide)).1⟩

/-- Witness for C8 with two concrete messages and distinct timestamps. -/
theorem persistence_round_trip_witness :
    ({ id := mkChatId 1, title := truncateText msgHello.content 25,
       messages := [msgHello, msgReply], mode := "chat", createdAt := 1 } : Chat)
      ∈ listChats (hydrate (roundTripState msgHello msgReply 0 1).storage 2)
    ∧ (hydrate (roundTripState msgHello msgReply 0 1).storage 2).currentChatId
      = some (mkChatId 1) :=
  persistence_round_trip msgHello msgReply 0 1 2 rfl (by decide)

end ChatApp
